import Mathlib

/-!
Verification of the box-spread scanner core.

Shallow embedding of the pricing, slippage, fee, risk, filtering,
ranking, expiry-classification and rate-limiting code of the scanner.
Prices and money amounts (C++ `double`) are modelled as rationals;
quantities (`uint64_t`) as naturals.  `std::log` has no rational
counterpart, so the evaluator takes the logarithm as an explicit
function parameter; no proved statement depends on its values.
-/

namespace BoxStrategy

/-- One level of a market-depth ladder: a price and the quantity
offered at that price (struct `MarketDepth` in `InstrumentModel.hpp`). -/
structure DepthLevel where
  price : ℚ
  quantity : ℕ
deriving DecidableEq, Repr

/-- The slice of `InstrumentModel` used by the pricing code: token,
last traded price, traded volume and the two depth ladders. -/
structure InstrumentModel where
  instrumentToken : ℕ := 0
  lastPrice : ℚ := 0
  volume : ℕ := 0
  buyDepth : List DepthLevel := []
  sellDepth : List DepthLevel := []
deriving DecidableEq, Repr, Inhabited

/-- The slice of `BoxSpreadModel` used by the analysis code: the two
strikes, the four legs, and the derived metric fields. -/
structure BoxSpreadModel where
  lowerStrike : ℚ
  higherStrike : ℚ
  longCallLower : InstrumentModel
  shortCallHigher : InstrumentModel
  longPutHigher : InstrumentModel
  shortPutLower : InstrumentModel
  netPremium : ℚ := 0
  maxProfit : ℚ := 0
  maxLoss : ℚ := 0
  profitability : ℚ := 0
  slippage : ℚ := 0
  fees : ℚ := 0
  margin : ℚ := 0
  roi : ℚ := 0
deriving DecidableEq, Repr, Inhabited

/-- Configuration values read through `ConfigManager::get*Value`;
each field default mirrors the default hard-coded at the call site. -/
structure Config where
  quantity : ℕ := 1
  minRoi : ℚ := 1/2
  minProfitability : ℚ := 1/10
  maxSlippage : ℚ := 20
  minStrikeDiff : ℚ := 50
  maxStrikeDiff : ℚ := 500
  marginBufferPercentage : ℚ := 25
  exposureMarginPercentage : ℚ := 3
  worstCaseSlippagePercent : ℚ := 5
  brokeragePercentage : ℚ := 3/100
  maxBrokeragePerOrder : ℚ := 20
  sttPercentage : ℚ := 5/100
  exchangeChargesPercentage : ℚ := 53/100000
  gstPercentage : ℚ := 18
  sebiChargesPerCrore : ℚ := 10
  stampDutyPercentage : ℚ := 3/1000
deriving Repr

/-- The configuration with every field at its coded default. -/
def defaultConfig : Config := {}

/-- `BoxSpreadModel::calculateTheoreticalValue`: the strike spread. -/
def BoxSpreadModel.calculateTheoreticalValue (b : BoxSpreadModel) : ℚ :=
  b.higherStrike - b.lowerStrike

/-- `BoxSpreadModel::calculateNetPremium`: signed entry cash flow;
long legs pay premium, short legs receive it. -/
def BoxSpreadModel.calculateNetPremium (b : BoxSpreadModel) : ℚ :=
  -b.longCallLower.lastPrice + b.shortCallHigher.lastPrice
    + -b.longPutHigher.lastPrice + b.shortPutLower.lastPrice

/-- `BoxSpreadModel::calculateProfitLoss`: theoretical value minus net
premium. -/
def BoxSpreadModel.calculateProfitLoss (b : BoxSpreadModel) : ℚ :=
  b.calculateTheoreticalValue - b.calculateNetPremium

/-- `BoxSpreadModel::hasCompleteMarketData`: all four legs carry a
positive last price.  (The code checks nothing else.) -/
def BoxSpreadModel.hasCompleteMarketData (b : BoxSpreadModel) : Bool :=
  !(b.longCallLower.lastPrice ≤ 0 || b.shortCallHigher.lastPrice ≤ 0
    || b.longPutHigher.lastPrice ≤ 0 || b.shortPutLower.lastPrice ≤ 0)

/-- Walk a depth ladder consuming `min remaining level.quantity` at each
level, accumulating `consumed * price`; stop when nothing remains.
Returns the accumulated sum and the quantity left unfilled.  This is the
loop shared by `BoxSpreadModel::calculateSlippage` and
`MarketDepthAnalyzer::calculateOptionSlippage`. -/
def walkDepth : List DepthLevel → ℕ → ℚ × ℕ
  | [], remaining => (0, remaining)
  | level :: rest, remaining =>
    let executed := min remaining level.quantity
    let newRemaining := remaining - executed
    if newRemaining = 0 then ((executed : ℚ) * level.price, 0)
    else
      let tail := walkDepth rest newRemaining
      ((executed : ℚ) * level.price + tail.1, tail.2)

/-- Total quantity available on a ladder. -/
def depthTotal (depth : List DepthLevel) : ℕ :=
  (depth.map (fun level => level.quantity)).sum

/-- One buy-leg block of `BoxSpreadModel::calculateSlippage`: walk the
sell ladder; on a full fill charge `(vwap - last) * q`, otherwise the
hard-coded 5 percent worst case. -/
def buyLegSlippage (inst : InstrumentModel) (quantity : ℕ) : ℚ :=
  if inst.sellDepth.isEmpty then inst.lastPrice * quantity * (5/100)
  else
    let walk := walkDepth inst.sellDepth quantity
    if walk.2 = 0 then (walk.1 / quantity - inst.lastPrice) * quantity
    else inst.lastPrice * quantity * (5/100)

/-- One sell-leg block of `BoxSpreadModel::calculateSlippage`: walk the
buy ladder; on a full fill charge `(last - vwap) * q`, otherwise the
hard-coded 5 percent worst case. -/
def sellLegSlippage (inst : InstrumentModel) (quantity : ℕ) : ℚ :=
  if inst.buyDepth.isEmpty then inst.lastPrice * quantity * (5/100)
  else
    let walk := walkDepth inst.buyDepth quantity
    if walk.2 = 0 then (inst.lastPrice - walk.1 / quantity) * quantity
    else inst.lastPrice * quantity * (5/100)

/-- `BoxSpreadModel::calculateSlippage`: the four leg blocks summed, in
source order (long call, short call, long put, short put). -/
def BoxSpreadModel.calculateSlippage (b : BoxSpreadModel) (quantity : ℕ) : ℚ :=
  buyLegSlippage b.longCallLower quantity
    + sellLegSlippage b.shortCallHigher quantity
    + buyLegSlippage b.longPutHigher quantity
    + sellLegSlippage b.shortPutLower quantity

/-- `MarketDepthAnalyzer::calculateOptionSlippage`: per-leg slippage with
the worst-case percentage read from configuration (default 5). -/
def calculateOptionSlippage (cfg : Config) (inst : InstrumentModel)
    (quantity : ℕ) (isBuy : Bool) : ℚ :=
  if isBuy then
    if inst.sellDepth.isEmpty then
      inst.lastPrice * quantity * (cfg.worstCaseSlippagePercent / 100)
    else
      let walk := walkDepth inst.sellDepth quantity
      if walk.2 = 0 then (walk.1 / quantity - inst.lastPrice) * quantity
      else inst.lastPrice * quantity * (cfg.worstCaseSlippagePercent / 100)
  else
    if inst.buyDepth.isEmpty then
      inst.lastPrice * quantity * (cfg.worstCaseSlippagePercent / 100)
    else
      let walk := walkDepth inst.buyDepth quantity
      if walk.2 = 0 then (inst.lastPrice - walk.1 / quantity) * quantity
      else inst.lastPrice * quantity * (cfg.worstCaseSlippagePercent / 100)

/-- `BoxSpreadModel::calculateFees`: the fee formula the evaluator
actually attaches to candidates.  Brokerage capped at 4 times 40,
STT on the full four-leg turnover, no stamp duty; percentages are
hard-coded in the source. -/
def BoxSpreadModel.calculateFees (b : BoxSpreadModel) (quantity : ℕ) : ℚ :=
  let longCallTurnover := b.longCallLower.lastPrice * quantity
  let shortCallTurnover := b.shortCallHigher.lastPrice * quantity
  let longPutTurnover := b.longPutHigher.lastPrice * quantity
  let shortPutTurnover := b.shortPutLower.lastPrice * quantity
  let totalTurnover := longCallTurnover + shortCallTurnover
    + longPutTurnover + shortPutTurnover
  let brokerage := min ((40 : ℚ) * 4) (totalTurnover * (5/10000))
  let stt := totalTurnover * (5/10000)
  let transactionCharges := totalTurnover * (53/10000000)
  let gst := (brokerage + transactionCharges) * (18/100)
  let sebiCharges := totalTurnover * (1/10000000)
  brokerage + stt + transactionCharges + gst + sebiCharges

/-- `FeeCalculator::calculateTurnover`: sum of the four last prices
times quantity. -/
def calculateTurnover (b : BoxSpreadModel) (quantity : ℕ) : ℚ :=
  (b.longCallLower.lastPrice + b.shortCallHigher.lastPrice
    + b.longPutHigher.lastPrice + b.shortPutLower.lastPrice) * quantity

/-- `FeeCalculator::calculateBrokerage`. -/
def calculateBrokerage (cfg : Config) (b : BoxSpreadModel) (quantity : ℕ) : ℚ :=
  min (calculateTurnover b quantity * (cfg.brokeragePercentage / 100))
    (cfg.maxBrokeragePerOrder * 4)

/-- `FeeCalculator::calculateSTT`: charged on the two sell legs only. -/
def calculateSTT (cfg : Config) (b : BoxSpreadModel) (quantity : ℕ) : ℚ :=
  (b.shortCallHigher.lastPrice + b.shortPutLower.lastPrice) * quantity
    * (cfg.sttPercentage / 100)

/-- `FeeCalculator::calculateExchangeCharges`. -/
def calculateExchangeCharges (cfg : Config) (b : BoxSpreadModel) (quantity : ℕ) : ℚ :=
  calculateTurnover b quantity * (cfg.exchangeChargesPercentage / 100)

/-- `FeeCalculator::calculateGST`. -/
def calculateGST (cfg : Config) (brokerage exchangeCharges : ℚ) : ℚ :=
  (brokerage + exchangeCharges) * (cfg.gstPercentage / 100)

/-- `FeeCalculator::calculateSEBICharges`: per crore of turnover. -/
def calculateSEBICharges (cfg : Config) (b : BoxSpreadModel) (quantity : ℕ) : ℚ :=
  calculateTurnover b quantity * (cfg.sebiChargesPerCrore / 10000000)

/-- `FeeCalculator::calculateStampDuty`: charged on the two buy legs
only. -/
def calculateStampDuty (cfg : Config) (b : BoxSpreadModel) (quantity : ℕ) : ℚ :=
  (b.longCallLower.lastPrice + b.longPutHigher.lastPrice) * quantity
    * (cfg.stampDutyPercentage / 100)

/-- `FeeCalculator::calculateTotalFees`: the six components summed. -/
def calculateTotalFees (cfg : Config) (b : BoxSpreadModel) (quantity : ℕ) : ℚ :=
  let brokerage := calculateBrokerage cfg b quantity
  let stt := calculateSTT cfg b quantity
  let exchangeCharges := calculateExchangeCharges cfg b quantity
  let gst := calculateGST cfg brokerage exchangeCharges
  let sebiCharges := calculateSEBICharges cfg b quantity
  let stampDuty := calculateStampDuty cfg b quantity
  brokerage + stt + exchangeCharges + gst + sebiCharges + stampDuty

/-- The section 4.F fee schedule of the specification, written from the
spec text (turnover, brokerage capped at 4 times 20, STT on the sell
legs, exchange charges, GST, SEBI charges, stamp duty on the buy legs),
for comparison with the fee functions embedded from the source. -/
def specFeeSchedule (b : BoxSpreadModel) (quantity : ℕ) : ℚ :=
  let turnover := (b.longCallLower.lastPrice + b.shortCallHigher.lastPrice
    + b.longPutHigher.lastPrice + b.shortPutLower.lastPrice) * quantity
  let brokerage := min (turnover * (3/10000)) ((4 : ℚ) * 20)
  let stt := (b.shortCallHigher.lastPrice + b.shortPutLower.lastPrice)
    * quantity * (5/10000)
  let exchangeCharges := turnover * (53/10000000)
  let gst := (18/100) * (brokerage + exchangeCharges)
  let sebiCharges := turnover * 10 / 10000000
  let stampDuty := (b.longCallLower.lastPrice + b.longPutHigher.lastPrice)
    * quantity * (3/100000)
  brokerage + stt + exchangeCharges + gst + sebiCharges + stampDuty

/-- `RiskCalculator::calculateMaxLoss`: premium paid when the net
premium is negative, otherwise the candidate's recorded fees plus
slippage, scaled by quantity. -/
def calculateMaxLoss (b : BoxSpreadModel) (quantity : ℕ) : ℚ :=
  if b.calculateNetPremium < 0 then -b.calculateNetPremium * quantity
  else (b.fees + b.slippage) * quantity

/-- `RiskCalculator::calculateMarginRequired`: SPAN-style margin (max
loss plus buffer) plus exposure margin on total premium. -/
def calculateMarginRequired (cfg : Config) (b : BoxSpreadModel) (quantity : ℕ) : ℚ :=
  let maxLoss := calculateMaxLoss b quantity
  let spanMargin := maxLoss * (1 + cfg.marginBufferPercentage / 100)
  let totalPremium := (b.longCallLower.lastPrice + b.shortCallHigher.lastPrice
    + b.longPutHigher.lastPrice + b.shortPutLower.lastPrice) * quantity
  let exposureMargin := totalPremium * (cfg.exposureMarginPercentage / 100)
  spanMargin + exposureMargin

/-- `CombinationAnalyzer::analyzeBoxSpread`: early return on incomplete
market data; otherwise fill in maxProfit, netPremium, slippage, fees,
margin, roi and profitability.  The source writes the fields one by one
on a single object; the pricing helpers called in between read only the
strikes and the four legs, which none of the writes touch, so here each
helper is evaluated on the incoming candidate, and
`calculateMarginRequired`, which does read the freshly written slippage
and fees fields, receives them explicitly.  `logf` stands for
`std::log`. -/
def analyzeBoxSpread (cfg : Config) (logf : ℚ → ℚ) (b : BoxSpreadModel) :
    BoxSpreadModel :=
  if b.hasCompleteMarketData then
    let quantity := cfg.quantity
    let profitLoss := b.calculateProfitLoss
    let slippage := b.calculateSlippage quantity
    let fees := b.calculateFees quantity
    let margin := calculateMarginRequired cfg
      { b with slippage := slippage, fees := fees } quantity
    let adjustedProfitLoss := profitLoss - slippage - fees
    let roi := if 0 < margin then adjustedProfitLoss / margin * 100 else 0
    { b with
      maxProfit := b.calculateTheoreticalValue,
      netPremium := b.calculateNetPremium,
      slippage := slippage, fees := fees, margin := margin, roi := roi,
      profitability := roi * logf (1 + |adjustedProfitLoss|) }
  else b

/-- The evaluator's survivor collection in
`CombinationAnalyzer::findProfitableSpreadsForExpiry`: every candidate
is run through `analyzeBoxSpread`, and only those passing
`hasCompleteMarketData` are kept. -/
def collectSurvivors (cfg : Config) (logf : ℚ → ℚ)
    (candidates : List BoxSpreadModel) : List BoxSpreadModel :=
  (candidates.map (analyzeBoxSpread cfg logf)).filter
    (fun b => b.hasCompleteMarketData)

/-- `CombinationAnalyzer::filterProfitableSpreads`: keep candidates with
roi, profitability and slippage inside the configured thresholds. -/
def filterProfitableSpreads (cfg : Config) (spreads : List BoxSpreadModel) :
    List BoxSpreadModel :=
  spreads.filter (fun b =>
    decide (cfg.minRoi ≤ b.roi) && decide (cfg.minProfitability ≤ b.profitability)
      && decide (b.slippage ≤ cfg.maxSlippage))

/-- The per-expiry output of
`CombinationAnalyzer::findProfitableSpreadsForExpiry`: the survivor set
passed through the profitability filter. -/
def perExpiryOutput (cfg : Config) (logf : ℚ → ℚ)
    (candidates : List BoxSpreadModel) : List BoxSpreadModel :=
  filterProfitableSpreads cfg (collectSurvivors cfg logf candidates)

/-- `CombinationAnalyzer::sortByProfitability`: `std::sort` with the
comparator profitability-greater, embedded as a merge sort on the
reflexive closure of that comparator (the postcondition of `std::sort`
is exactly a sorted permutation). -/
def sortByProfitability (spreads : List BoxSpreadModel) : List BoxSpreadModel :=
  spreads.mergeSort (fun a b => decide (b.profitability ≤ a.profitability))

/-- The final step of `CombinationAnalyzer::findProfitableSpreads`: the
per-expiry result lists are concatenated and globally re-sorted by
profitability. -/
def globalRanking (perExpiry : List (List BoxSpreadModel)) : List BoxSpreadModel :=
  sortByProfitability perExpiry.flatten

/-- Eviction step of `MarketDataManager::checkRateLimit`: pop recorded
grant timestamps strictly older than `now` minus 60 seconds from the
front of the queue. -/
def evictOld (now : ℚ) (times : List ℚ) : List ℚ :=
  times.dropWhile (fun t => decide (t < now - 60))

/-- The admissions of `MarketDataManager::checkRateLimit` over a trace
of acquire-call instants: at each call evict old timestamps, grant and
record the instant when fewer than `r` remain, otherwise deny (the
caller sleeps until the oldest timestamp ages out and calls again,
which appears in the trace as a later instant).  Returns the instants
at which a request was granted. -/
def runRateLimiter (r : ℕ) : List ℚ → List ℚ → List ℚ
  | _, [] => []
  | queue, now :: rest =>
    let ts := evictOld now queue
    if ts.length < r then now :: runRateLimiter r (ts ++ [now]) rest
    else runRateLimiter r ts rest

/-- Endpoint-to-cell resolution of `MarketDataManager::checkRateLimit`:
an endpoint with no registered cell resolves to the default cell. -/
def rateKeyFor (registered : List String) (endpoint : String) : String :=
  if endpoint ∈ registered then endpoint else "default"

/-- A broken-down local time as produced by `localtime`: year, month
index 0 to 11 (`tm_mon`), day of month 1-based (`tm_mday`), and day of
week with 0 = Sunday (`tm_wday`). -/
structure Tm where
  year : ℤ
  mon : ℕ
  mday : ℕ
  wday : ℕ
deriving DecidableEq, Repr

/-- Leap-year rule used by the civil calendar. -/
def isLeapYear (year : ℤ) : Bool :=
  (year % 4 = 0 && year % 100 ≠ 0) || year % 400 = 0

/-- Number of days in a civil month (month index 0 to 11). -/
def daysInMonth (year : ℤ) (mon : ℕ) : ℕ :=
  if mon = 1 then (if isLeapYear year then 29 else 28)
  else if mon = 3 || mon = 5 || mon = 8 || mon = 10 then 30
  else 31

/-- The `tm_mday += 7; mktime` normalization used by
`is_last_thursday`: add seven days to a valid date, rolling into the
next calendar month (and next year after December) when the day of
month overflows.  Seven days leave the weekday unchanged. -/
def addSevenDays (d : Tm) : Tm :=
  let newDay := d.mday + 7
  if newDay ≤ daysInMonth d.year d.mon then { d with mday := newDay }
  else if d.mon = 11 then
    { year := d.year + 1, mon := 0,
      mday := newDay - daysInMonth d.year d.mon, wday := d.wday }
  else
    { d with mon := d.mon + 1, mday := newDay - daysInMonth d.year d.mon }

/-- A date is valid when its day of month is in range for its month and
its month index is below 12. -/
def validTm (d : Tm) : Prop :=
  1 ≤ d.mday ∧ d.mday ≤ daysInMonth d.year d.mon ∧ d.mon ≤ 11

instance (d : Tm) : Decidable (validTm d) := by
  unfold validTm
  infer_instance

/-- The `is_last_thursday` helper of `ExpiryManager.cpp`: a Thursday
whose date seven days later falls in a different `tm_mon`. -/
def isLastThursday (d : Tm) : Bool :=
  if d.wday ≠ 4 then false
  else (addSevenDays d).mon ≠ d.mon

/-- `ExpiryManager::isMonthlyExpiry` (cache aside): Thursday and last
Thursday of its month. -/
def isMonthlyExpiry (d : Tm) : Bool :=
  (d.wday = 4) && isLastThursday d

/-- `ExpiryManager::isWeeklyExpiry` of `ExpiryManager.cpp` (cache
aside): a Thursday that is not a monthly expiry. -/
def isWeeklyExpiry (d : Tm) : Bool :=
  let isMonthly := (d.wday = 4) && isLastThursday d
  !isMonthly && (d.wday = 4)

/-- The legacy `ExpiryManager::isWeeklyExpiry` found in the
`ConfigManager.cpp` translation unit (cache aside): simply the negation
of the last-Thursday test, with no Thursday check of its own. -/
def legacyIsWeeklyExpiry (d : Tm) : Bool :=
  !isLastThursday d

/-- Classification outcome of one expiry instant. -/
inductive ExpiryClass where
  | monthly
  | weekly
  | neither
deriving DecidableEq, Repr

/-- The classification loop inside `ExpiryManager::getExpiries`
(`ExpiryManager.cpp`): last Thursdays are monthly, other Thursdays are
weekly, everything else lands in neither list. -/
def classifyExpiry (d : Tm) : ExpiryClass :=
  if isLastThursday d then ExpiryClass.monthly
  else if d.wday = 4 then ExpiryClass.weekly
  else ExpiryClass.neither

/-- Months since the epoch of a broken-down date, ordering calendar
months across years; the specification's later-calendar-month relation
compares these. -/
def yearMonthIndex (d : Tm) : ℤ :=
  d.year * 12 + d.mon

/-- The nested strike loops of
`CombinationAnalyzer::generateStrikeCombinations`: for each outer index
pair each strike with every later strike whose difference lies within
the configured bounds. -/
def strikePairsFrom (minDiff maxDiff : ℚ) : List ℚ → List (ℚ × ℚ)
  | [] => []
  | s :: rest =>
    (rest.filterMap (fun t =>
      if minDiff ≤ t - s ∧ t - s ≤ maxDiff then some (s, t) else none))
      ++ strikePairsFrom minDiff maxDiff rest

/-- `CombinationAnalyzer::generateStrikeCombinations` with the bounds
read from configuration. -/
def generateStrikeCombinations (cfg : Config) (strikes : List ℚ) :
    List (ℚ × ℚ) :=
  strikePairsFrom cfg.minStrikeDiff cfg.maxStrikeDiff strikes

/-- The completeness predicate as the specification words it: every leg
has a positive last price AND a non-empty relevant depth ladder (sell
ladder for the two buy legs, buy ladder for the two sell legs).
Written from the spec for comparison with
`BoxSpreadModel.hasCompleteMarketData`. -/
def specCompleteMarketData (b : BoxSpreadModel) : Bool :=
  (0 < b.longCallLower.lastPrice && 0 < b.shortCallHigher.lastPrice
    && 0 < b.longPutHigher.lastPrice && 0 < b.shortPutLower.lastPrice)
    && !b.longCallLower.sellDepth.isEmpty
    && !b.shortCallHigher.buyDepth.isEmpty
    && !b.longPutHigher.sellDepth.isEmpty
    && !b.shortPutLower.buyDepth.isEmpty

/-- Candidate with all four last prices equal to 100 (strikes 100 and
200); used to separate the two fee formulas. -/
def c1Box : BoxSpreadModel :=
  { lowerStrike := 100, higherStrike := 200,
    longCallLower := { lastPrice := 100 },
    shortCallHigher := { lastPrice := 100 },
    longPutHigher := { lastPrice := 100 },
    shortPutLower := { lastPrice := 100 } }

/-- Candidate with positive last prices but entirely empty depth
ladders. -/
def c2Box : BoxSpreadModel :=
  { lowerStrike := 100, higherStrike := 200,
    longCallLower := { lastPrice := 1 },
    shortCallHigher := { lastPrice := 1 },
    longPutHigher := { lastPrice := 1 },
    shortPutLower := { lastPrice := 1 } }

/-- Instrument with last price 10 and a single sell level offering five
units at price 11. -/
def c3Inst : InstrumentModel :=
  { lastPrice := 10, sellDepth := [{ price := 11, quantity := 5 }] }

/-- Candidate whose adjusted profit and loss is negative while its
required margin is positive: theoretical value 1, net premium 0, and
worst-case slippage on all four legs. -/
def c6Box : BoxSpreadModel :=
  { lowerStrike := 100, higherStrike := 101,
    longCallLower := { lastPrice := 50 },
    shortCallHigher := { lastPrice := 50 },
    longPutHigher := { lastPrice := 40 },
    shortPutLower := { lastPrice := 40 } }

/-- Candidate carrying only ranking metrics (low profitability). -/
def c9BoxLow : BoxSpreadModel :=
  { lowerStrike := 0, higherStrike := 0,
    longCallLower := {}, shortCallHigher := {},
    longPutHigher := {}, shortPutLower := {},
    profitability := 1 }

/-- Candidate carrying only ranking metrics (high profitability). -/
def c9BoxHigh : BoxSpreadModel :=
  { lowerStrike := 0, higherStrike := 0,
    longCallLower := {}, shortCallHigher := {},
    longPutHigher := {}, shortPutLower := {},
    profitability := 2 }

/-- Candidate that passes every profitability threshold of the default
configuration. -/
def c8Box : BoxSpreadModel :=
  { lowerStrike := 0, higherStrike := 0,
    longCallLower := {}, shortCallHigher := {},
    longPutHigher := {}, shortPutLower := {},
    profitability := 1, roi := 1, slippage := 1 }

/-- Candidate with one non-positive leg price and nonzero metric fields,
exercising the early return of the analyzer. -/
def c10Box : BoxSpreadModel :=
  { lowerStrike := 100, higherStrike := 200,
    longCallLower := { lastPrice := 0 },
    shortCallHigher := { lastPrice := 7 },
    longPutHigher := { lastPrice := 7 },
    shortPutLower := { lastPrice := 7 },
    netPremium := 3, maxProfit := 4, maxLoss := 5, profitability := 6,
    slippage := 7, fees := 8, margin := 9, roi := 10 }

/-- The completeness check passes exactly when all four last prices are
positive. -/
theorem hasCompleteMarketData_iff (b : BoxSpreadModel) :
    b.hasCompleteMarketData = true ↔
      (0 < b.longCallLower.lastPrice ∧ 0 < b.shortCallHigher.lastPrice ∧
       0 < b.longPutHigher.lastPrice ∧ 0 < b.shortPutLower.lastPrice) := by
  simp [BoxSpreadModel.hasCompleteMarketData, not_le, and_assoc]

/-- The analyzer returns an incomplete candidate untouched. -/
theorem analyzeBoxSpread_incomplete (cfg : Config) (logf : ℚ → ℚ)
    (b : BoxSpreadModel) (h : b.hasCompleteMarketData = false) :
    analyzeBoxSpread cfg logf b = b := by
  simp [analyzeBoxSpread, h]

/-- The analyzer never rewrites the four legs, so the completeness
check gives the same verdict before and after analysis. -/
theorem analyzeBoxSpread_preserves_legs (cfg : Config) (logf : ℚ → ℚ)
    (b : BoxSpreadModel) :
    (analyzeBoxSpread cfg logf b).hasCompleteMarketData
      = b.hasCompleteMarketData := by
  unfold analyzeBoxSpread
  split
  · rfl
  · rfl

/-- C10: when the complete-market-data check fails (some leg's last
price is not positive), `analyzeBoxSpread` returns the candidate with
every derived metric field unchanged from its input value; in fact it
returns the candidate itself. -/
theorem c10_incomplete_candidate_untouched (cfg : Config) (logf : ℚ → ℚ)
    (b : BoxSpreadModel)
    (h : b.longCallLower.lastPrice ≤ 0 ∨ b.shortCallHigher.lastPrice ≤ 0 ∨
         b.longPutHigher.lastPrice ≤ 0 ∨ b.shortPutLower.lastPrice ≤ 0) :
    (analyzeBoxSpread cfg logf b).netPremium = b.netPremium ∧
    (analyzeBoxSpread cfg logf b).maxProfit = b.maxProfit ∧
    (analyzeBoxSpread cfg logf b).maxLoss = b.maxLoss ∧
    (analyzeBoxSpread cfg logf b).slippage = b.slippage ∧
    (analyzeBoxSpread cfg logf b).fees = b.fees ∧
    (analyzeBoxSpread cfg logf b).margin = b.margin ∧
    (analyzeBoxSpread cfg logf b).roi = b.roi ∧
    (analyzeBoxSpread cfg logf b).profitability = b.profitability ∧
    analyzeBoxSpread cfg logf b = b := by
  have hb : b.hasCompleteMarketData = false := by
    rcases h with h | h | h | h <;>
      simp [BoxSpreadModel.hasCompleteMarketData, h]
  have he := analyzeBoxSpread_incomplete cfg logf b hb
  rw [he]
  exact ⟨rfl, rfl, rfl, rfl, rfl, rfl, rfl, rfl, rfl⟩

/-- C10 witness: a concrete candidate with a zero last price passes
through the analyzer unchanged. -/
theorem c10_witness :
    c10Box.longCallLower.lastPrice ≤ 0 ∧
    analyzeBoxSpread defaultConfig (fun x => x) c10Box = c10Box :=
  ⟨by decide,
   (c10_incomplete_candidate_untouched defaultConfig (fun x => x) c10Box
     (Or.inl (by decide))).2.2.2.2.2.2.2.2⟩

/-- C2 counterexample: a candidate with positive last prices and empty
depth ladders passes `hasCompleteMarketData`, so the check is not the
conjunction of positive prices and non-empty ladders claimed. -/
theorem c2_counterexample :
    c2Box.hasCompleteMarketData = true ∧ specCompleteMarketData c2Box = false := by
  decide

/-- C2 (amended): the complete-market-data check returns true if and
only if each of the four legs has a positive last price (the depth
ladders are not examined), and candidates failing the check never enter
the survivor set. -/
theorem c2_check_and_survivors :
    (∀ b : BoxSpreadModel, b.hasCompleteMarketData = true ↔
      (0 < b.longCallLower.lastPrice ∧ 0 < b.shortCallHigher.lastPrice ∧
       0 < b.longPutHigher.lastPrice ∧ 0 < b.shortPutLower.lastPrice)) ∧
    (∀ (cfg : Config) (logf : ℚ → ℚ) (candidates : List BoxSpreadModel)
       (b : BoxSpreadModel), b ∈ collectSurvivors cfg logf candidates →
         b.hasCompleteMarketData = true) := by
  refine ⟨hasCompleteMarketData_iff, ?_⟩
  intro cfg logf candidates b hb
  rw [collectSurvivors] at hb
  exact (List.mem_filter.mp hb).2

/-- C2 witness: a concrete survivor extracted from the collection step
passes the completeness check. -/
theorem c2_witness :
    analyzeBoxSpread defaultConfig (fun x => x) c2Box ∈
      collectSurvivors defaultConfig (fun x => x) [c2Box] ∧
    (analyzeBoxSpread defaultConfig (fun x => x) c2Box).hasCompleteMarketData
      = true := by
  have hc2 : c2Box.hasCompleteMarketData = true := by
    rw [hasCompleteMarketData_iff]
    norm_num [c2Box]
  have hc : (analyzeBoxSpread defaultConfig (fun x => x) c2Box).hasCompleteMarketData
      = true := by
    rw [analyzeBoxSpread_preserves_legs]
    exact hc2
  have hm : analyzeBoxSpread defaultConfig (fun x => x) c2Box ∈
      collectSurvivors defaultConfig (fun x => x) [c2Box] := by
    simp [collectSurvivors, List.mem_filter, hc]
  exact ⟨hm, c2_check_and_survivors.2 defaultConfig (fun x => x) [c2Box] _ hm⟩

/-- C8: a candidate appears in the per-expiry output only if its roi,
profitability and slippage respect the configured thresholds; the
filter keeps exactly the evaluated survivors satisfying all three; in
particular a candidate whose slippage exceeds the bound never appears,
regardless of its roi. -/
theorem c8_filter_thresholds (cfg : Config) :
    (∀ (spreads : List BoxSpreadModel) (b : BoxSpreadModel),
       b ∈ filterProfitableSpreads cfg spreads ↔
         b ∈ spreads ∧ cfg.minRoi ≤ b.roi ∧
           cfg.minProfitability ≤ b.profitability ∧
           b.slippage ≤ cfg.maxSlippage) ∧
    (∀ (logf : ℚ → ℚ) (candidates : List BoxSpreadModel)
       (b : BoxSpreadModel), b ∈ perExpiryOutput cfg logf candidates →
         cfg.minRoi ≤ b.roi ∧ cfg.minProfitability ≤ b.profitability ∧
           b.slippage ≤ cfg.maxSlippage) ∧
    (∀ (logf : ℚ → ℚ) (candidates : List BoxSpreadModel)
       (b : BoxSpreadModel), cfg.maxSlippage < b.slippage →
         b ∉ perExpiryOutput cfg logf candidates) := by
  have hmem : ∀ (spreads : List BoxSpreadModel) (b : BoxSpreadModel),
      b ∈ filterProfitableSpreads cfg spreads ↔
        b ∈ spreads ∧ cfg.minRoi ≤ b.roi ∧
          cfg.minProfitability ≤ b.profitability ∧
          b.slippage ≤ cfg.maxSlippage := by
    intro spreads b
    simp [filterProfitableSpreads, List.mem_filter, and_assoc]
  refine ⟨hmem, ?_, ?_⟩
  · intro logf candidates b hb
    exact ((hmem _ b).mp hb).2
  · intro logf candidates b hslip hb
    exact absurd ((hmem _ b).mp hb).2.2.2 (not_le.mpr hslip)

/-- C6: for a fully quoted candidate the evaluator's roi equals the
adjusted profit and loss (raw profit minus the attached slippage and
fees) divided by the attached margin times 100 when the margin is
positive, is 0 when the margin is not positive, and is negative
whenever the adjusted profit and loss is negative while the margin is
positive. -/
theorem c6_roi_formula (cfg : Config) (logf : ℚ → ℚ) (b : BoxSpreadModel)
    (h : b.hasCompleteMarketData = true) :
    (0 < (analyzeBoxSpread cfg logf b).margin →
      (analyzeBoxSpread cfg logf b).roi =
        (b.calculateProfitLoss - (analyzeBoxSpread cfg logf b).slippage
          - (analyzeBoxSpread cfg logf b).fees)
          / (analyzeBoxSpread cfg logf b).margin * 100) ∧
    ((analyzeBoxSpread cfg logf b).margin ≤ 0 →
      (analyzeBoxSpread cfg logf b).roi = 0) ∧
    (b.calculateProfitLoss - (analyzeBoxSpread cfg logf b).slippage
        - (analyzeBoxSpread cfg logf b).fees < 0 →
      0 < (analyzeBoxSpread cfg logf b).margin →
      (analyzeBoxSpread cfg logf b).roi < 0) := by
  have hs : (analyzeBoxSpread cfg logf b).slippage
      = b.calculateSlippage cfg.quantity := by
    simp [analyzeBoxSpread, h]
  have hf : (analyzeBoxSpread cfg logf b).fees
      = b.calculateFees cfg.quantity := by
    simp [analyzeBoxSpread, h]
  have hm : (analyzeBoxSpread cfg logf b).margin
      = calculateMarginRequired cfg
          { b with slippage := b.calculateSlippage cfg.quantity,
                   fees := b.calculateFees cfg.quantity } cfg.quantity := by
    simp [analyzeBoxSpread, h]
  have hr : (analyzeBoxSpread cfg logf b).roi
      = if 0 < calculateMarginRequired cfg
            { b with slippage := b.calculateSlippage cfg.quantity,
                     fees := b.calculateFees cfg.quantity } cfg.quantity then
          (b.calculateProfitLoss - b.calculateSlippage cfg.quantity
            - b.calculateFees cfg.quantity)
            / calculateMarginRequired cfg
                { b with slippage := b.calculateSlippage cfg.quantity,
                         fees := b.calculateFees cfg.quantity } cfg.quantity
            * 100
        else 0 := by
    simp [analyzeBoxSpread, h]
  rw [hs, hf, hm, hr]
  refine ⟨fun hpos => by rw [if_pos hpos], fun hle => by rw [if_neg (not_lt.mpr hle)],
    fun hneg hpos => ?_⟩
  rw [if_pos hpos]
  exact mul_neg_of_neg_of_pos (div_neg_of_neg_of_pos hneg hpos) (by norm_num)

/-- C6 witness: a concrete candidate with negative adjusted profit and
loss and positive margin receives a negative roi. -/
theorem c6_witness :
    c6Box.hasCompleteMarketData = true ∧
    (analyzeBoxSpread defaultConfig (fun x => x) c6Box).roi < 0 := by
  have h : c6Box.hasCompleteMarketData = true := by
    rw [hasCompleteMarketData_iff]
    norm_num [c6Box]
  refine ⟨h, (c6_roi_formula defaultConfig (fun x => x) c6Box h).2.2 ?_ ?_⟩ <;>
    norm_num [analyzeBoxSpread, c6Box, defaultConfig,
      BoxSpreadModel.hasCompleteMarketData,
      BoxSpreadModel.calculateProfitLoss, BoxSpreadModel.calculateTheoreticalValue,
      BoxSpreadModel.calculateNetPremium, BoxSpreadModel.calculateSlippage,
      buyLegSlippage, sellLegSlippage, BoxSpreadModel.calculateFees,
      calculateMarginRequired, calculateMaxLoss, min_def]

/-- C1 counterexample: on a concrete fully quoted candidate the fees
attached by the evaluator differ from the section 4.F fee schedule, so
the attached fees metric does not equal that schedule. -/
theorem c1_counterexample :
    (analyzeBoxSpread defaultConfig (fun x => x) c1Box).fees
      ≠ specFeeSchedule c1Box defaultConfig.quantity := by
  have h : c1Box.hasCompleteMarketData = true := by
    rw [hasCompleteMarketData_iff]
    norm_num [c1Box]
  have hf : (analyzeBoxSpread defaultConfig (fun x => x) c1Box).fees
      = c1Box.calculateFees defaultConfig.quantity := by
    simp [analyzeBoxSpread, h]
  rw [hf]
  norm_num [BoxSpreadModel.calculateFees, specFeeSchedule, c1Box,
    defaultConfig, min_def]

/-- C1 (amended): the fees metric attached to an evaluated candidate is
the `BoxSpreadModel::calculateFees` schedule — brokerage
min(4 times 40, turnover times 0.0005), STT at 0.0005 on the full
four-leg turnover, exchange charges at 0.0000053, GST at 18 percent of
brokerage plus exchange charges, SEBI charges at turnover per crore,
and no stamp duty — while the section 4.F schedule of the claim is the
distinct formula computed by `FeeCalculator::calculateTotalFees` at the
default configuration. -/
theorem c1_fees_attached :
    (∀ (cfg : Config) (logf : ℚ → ℚ) (b : BoxSpreadModel),
      b.hasCompleteMarketData = true →
      (analyzeBoxSpread cfg logf b).fees =
        min ((40 : ℚ) * 4) (calculateTurnover b cfg.quantity * (5/10000))
          + calculateTurnover b cfg.quantity * (5/10000)
          + calculateTurnover b cfg.quantity * (53/10000000)
          + (min ((40 : ℚ) * 4) (calculateTurnover b cfg.quantity * (5/10000))
              + calculateTurnover b cfg.quantity * (53/10000000)) * (18/100)
          + calculateTurnover b cfg.quantity * (1/10000000)) ∧
    (∀ (b : BoxSpreadModel) (q : ℕ),
      calculateTotalFees defaultConfig b q = specFeeSchedule b q) := by
  constructor
  · intro cfg logf b h
    have hf : (analyzeBoxSpread cfg logf b).fees
        = b.calculateFees cfg.quantity := by
      simp [analyzeBoxSpread, h]
    rw [hf]
    have ht : b.longCallLower.lastPrice * (cfg.quantity : ℚ)
        + b.shortCallHigher.lastPrice * cfg.quantity
        + b.longPutHigher.lastPrice * cfg.quantity
        + b.shortPutLower.lastPrice * cfg.quantity
        = calculateTurnover b cfg.quantity := by
      rw [calculateTurnover]; ring
    rw [BoxSpreadModel.calculateFees]
    rw [ht]
  · intro b q
    simp only [calculateTotalFees, specFeeSchedule, calculateBrokerage,
      calculateSTT, calculateExchangeCharges, calculateGST,
      calculateSEBICharges, calculateStampDuty, calculateTurnover,
      defaultConfig]
    norm_num
    ring_nf

/-- C1 witness: the attached-fee formula evaluated on the concrete
candidate of the counterexample. -/
theorem c1_witness :
    c1Box.hasCompleteMarketData = true ∧
    (analyzeBoxSpread defaultConfig (fun x => x) c1Box).fees =
      min ((40 : ℚ) * 4) (calculateTurnover c1Box defaultConfig.quantity * (5/10000))
        + calculateTurnover c1Box defaultConfig.quantity * (5/10000)
        + calculateTurnover c1Box defaultConfig.quantity * (53/10000000)
        + (min ((40 : ℚ) * 4)
            (calculateTurnover c1Box defaultConfig.quantity * (5/10000))
            + calculateTurnover c1Box defaultConfig.quantity * (53/10000000))
          * (18/100)
        + calculateTurnover c1Box defaultConfig.quantity * (1/10000000) := by
  have h : c1Box.hasCompleteMarketData = true := by
    rw [hasCompleteMarketData_iff]
    norm_num [c1Box]
  exact ⟨h, c1_fees_attached.1 defaultConfig (fun x => x) c1Box h⟩

/-- C8 witness: a concrete candidate inside all three thresholds is
kept by the filter. -/
theorem c8_witness :
    c8Box ∈ filterProfitableSpreads defaultConfig [c8Box] :=
  ((c8_filter_thresholds defaultConfig).1 [c8Box] c8Box).mpr
    ⟨by simp, by norm_num [defaultConfig, c8Box], by norm_num [defaultConfig, c8Box],
     by norm_num [defaultConfig, c8Box]⟩

/-- Adding seven days moves to a different month index exactly when it
moves to a strictly later calendar month. -/
theorem addSevenDays_mon_ne_iff (d : Tm) :
    (addSevenDays d).mon ≠ d.mon ↔
      yearMonthIndex d < yearMonthIndex (addSevenDays d) := by
  by_cases h1 : d.mday + 7 ≤ daysInMonth d.year d.mon
  · have e : addSevenDays d = { d with mday := d.mday + 7 } := by
      simp only [addSevenDays]
      rw [if_pos h1]
    rw [e]
    simp [yearMonthIndex]
  · by_cases h2 : d.mon = 11
    · have e : addSevenDays d =
          { year := d.year + 1, mon := 0,
            mday := d.mday + 7 - daysInMonth d.year d.mon, wday := d.wday } := by
        simp only [addSevenDays]
        rw [if_neg h1, if_pos h2]
      rw [e]
      simp only [yearMonthIndex]
      rw [h2]
      push_cast
      omega
    · have e : addSevenDays d =
          { d with mon := d.mon + 1,
                   mday := d.mday + 7 - daysInMonth d.year d.mon } := by
        simp only [addSevenDays]
        rw [if_neg h1, if_neg h2]
      rw [e]
      simp only [yearMonthIndex]
      push_cast
      omega

/-- C5 counterexample: 2024-06-26, a Wednesday, is labeled weekly by the
legacy `isWeeklyExpiry` of the `ConfigManager.cpp` translation unit, so
not every classification path leaves non-Thursdays unlabeled. -/
theorem c5_counterexample :
    (Tm.mk 2024 5 26 3).wday ≠ 4 ∧
    legacyIsWeeklyExpiry (Tm.mk 2024 5 26 3) = true ∧
    validTm (Tm.mk 2024 5 26 3) := by
  refine ⟨by decide, by decide, by decide⟩

/-- C5 (amended): on valid dates, `isMonthlyExpiry` holds exactly on
Thursdays whose date plus seven days lies in a later calendar month;
the `ExpiryManager.cpp` `isWeeklyExpiry` holds exactly on Thursdays
that are not monthly; those two paths and the `getExpiries`
classification loop label non-Thursdays neither; but the legacy
`isWeeklyExpiry` of the `ConfigManager.cpp` translation unit labels
every non-last-Thursday instant weekly, including non-Thursdays. -/
theorem c5_classifier (d : Tm) (_hv : validTm d) :
    (isMonthlyExpiry d = true ↔
      (d.wday = 4 ∧ yearMonthIndex d < yearMonthIndex (addSevenDays d))) ∧
    (isWeeklyExpiry d = true ↔ (d.wday = 4 ∧ isMonthlyExpiry d = false)) ∧
    (d.wday ≠ 4 → isMonthlyExpiry d = false ∧ isWeeklyExpiry d = false ∧
      classifyExpiry d = ExpiryClass.neither) ∧
    (classifyExpiry d = ExpiryClass.monthly ↔ isMonthlyExpiry d = true) ∧
    (classifyExpiry d = ExpiryClass.weekly ↔ isWeeklyExpiry d = true) ∧
    (legacyIsWeeklyExpiry d = true ↔ isLastThursday d = false) := by
  by_cases hw : d.wday = 4
  · constructor
    · rw [← addSevenDays_mon_ne_iff]
      simp [isMonthlyExpiry, isLastThursday, hw]
    constructor
    · simp [isWeeklyExpiry, isMonthlyExpiry, hw]
    constructor
    · intro hne; exact absurd hw hne
    constructor
    · simp [classifyExpiry, isMonthlyExpiry, isLastThursday, hw]
    constructor
    · simp [classifyExpiry, isWeeklyExpiry, isMonthlyExpiry, isLastThursday, hw]
    · simp [legacyIsWeeklyExpiry, Bool.not_eq_true']
  · have hm : isMonthlyExpiry d = false := by
      simp [isMonthlyExpiry, hw]
    have hlt : isLastThursday d = false := by
      simp [isLastThursday, hw]
    have hwk : isWeeklyExpiry d = false := by
      simp [isWeeklyExpiry, hw]
    refine ⟨?_, ?_, ?_, ?_, ?_, ?_⟩
    · simp [hm, hw]
    · simp [hwk, hw]
    · intro _; exact ⟨hm, hwk, by simp [classifyExpiry, hlt, hw]⟩
    · simp [classifyExpiry, hlt, hw, hm]
    · simp [classifyExpiry, hlt, hw, hwk]
    · simp [legacyIsWeeklyExpiry, Bool.not_eq_true']

/-- C5 witness: 2024-06-27, the last Thursday of June 2024, instantiates
the amended classifier equivalences. -/
theorem c5_witness :
    validTm (Tm.mk 2024 5 27 4) ∧
    (isMonthlyExpiry (Tm.mk 2024 5 27 4) = true ↔
      ((Tm.mk 2024 5 27 4).wday = 4 ∧
        yearMonthIndex (Tm.mk 2024 5 27 4)
          < yearMonthIndex (addSevenDays (Tm.mk 2024 5 27 4)))) :=
  ⟨by decide, (c5_classifier (Tm.mk 2024 5 27 4) (by decide)).1⟩

/-- C9: in the final list emitted by a scan cycle (per-expiry results
concatenated and globally re-sorted), the profitability score is
non-increasing at every adjacent pair of indices. -/
theorem c9_ranking_monotone (perExpiry : List (List BoxSpreadModel)) (i : ℕ)
    (h1 : i < (globalRanking perExpiry).length)
    (h2 : i + 1 < (globalRanking perExpiry).length) :
    ((globalRanking perExpiry).get ⟨i + 1, h2⟩).profitability
      ≤ ((globalRanking perExpiry).get ⟨i, h1⟩).profitability := by
  have hp : List.Pairwise
      (fun a b : BoxSpreadModel =>
        decide (b.profitability ≤ a.profitability) = true)
      (globalRanking perExpiry) := by
    rw [globalRanking, sortByProfitability]
    apply List.sorted_mergeSort
    · intro a b c hab hbc
      simp only [decide_eq_true_eq] at *
      exact le_trans hbc hab
    · intro a b
      simpa [Bool.or_eq_true, decide_eq_true_eq] using
        le_total b.profitability a.profitability
  have := List.pairwise_iff_get.mp hp ⟨i, h1⟩ ⟨i + 1, h2⟩
    (Fin.mk_lt_mk.mpr (Nat.lt_succ_self i))
  simpa using this

/-- C9 witness: a concrete two-expiry scan, with the bound hypotheses
discharged by evaluating the ranked list's length. -/
theorem c9_witness :
    ((globalRanking [[c9BoxLow], [c9BoxHigh]]).get
        ⟨1, by rw [globalRanking, sortByProfitability, List.length_mergeSort]; simp⟩).profitability
      ≤ ((globalRanking [[c9BoxLow], [c9BoxHigh]]).get
        ⟨0, by rw [globalRanking, sortByProfitability, List.length_mergeSort]; simp⟩).profitability := by
  have h2 : 0 + 1 < (globalRanking [[c9BoxLow], [c9BoxHigh]]).length := by
    rw [globalRanking, sortByProfitability, List.length_mergeSort]; simp
  have h1 : 0 < (globalRanking [[c9BoxLow], [c9BoxHigh]]).length := by
    rw [globalRanking, sortByProfitability, List.length_mergeSort]; simp
  exact c9_ranking_monotone [[c9BoxLow], [c9BoxHigh]] 0 h1 h2

/-- The unfilled remainder of a depth walk is the requested quantity
truncated-minus the total quantity on the ladder. -/
theorem walkDepth_snd (depth : List DepthLevel) (q : ℕ) :
    (walkDepth depth q).2 = q - depthTotal depth := by
  induction depth generalizing q with
  | nil => simp [walkDepth, depthTotal]
  | cons level rest ih =>
    simp only [walkDepth, depthTotal, List.map_cons, List.sum_cons]
    split
    · next hz =>
      simp only []
      omega
    · next hz =>
      simp only [ih]
      simp only [depthTotal] at *
      omega

/-- C3: per-leg slippage walks the relevant ladder; with an empty
ladder or a ladder that cannot serve the quantity it charges the
worst-case percentage of the last price, and with a ladder that fully
serves the quantity it charges the signed difference between the
volume-weighted average fill price and the last price; the model's
four-leg slippage is the sum of the per-leg values at the hard-coded
5 percent worst case. -/
theorem c3_slippage (cfg : Config) (inst : InstrumentModel) (q : ℕ)
    (hq : 0 < q) :
    (∀ isBuy : Bool,
       (if isBuy then inst.sellDepth else inst.buyDepth) = [] →
       calculateOptionSlippage cfg inst q isBuy
         = inst.lastPrice * q * (cfg.worstCaseSlippagePercent / 100)) ∧
    (∀ isBuy : Bool,
       depthTotal (if isBuy then inst.sellDepth else inst.buyDepth) < q →
       calculateOptionSlippage cfg inst q isBuy
         = inst.lastPrice * q * (cfg.worstCaseSlippagePercent / 100)) ∧
    (q ≤ depthTotal inst.sellDepth →
       calculateOptionSlippage cfg inst q true
         = ((walkDepth inst.sellDepth q).1 / q - inst.lastPrice) * q) ∧
    (q ≤ depthTotal inst.buyDepth →
       calculateOptionSlippage cfg inst q false
         = (inst.lastPrice - (walkDepth inst.buyDepth q).1 / q) * q) ∧
    (∀ b : BoxSpreadModel,
       b.calculateSlippage q
         = calculateOptionSlippage
             { cfg with worstCaseSlippagePercent := 5 } b.longCallLower q true
           + calculateOptionSlippage
             { cfg with worstCaseSlippagePercent := 5 } b.shortCallHigher q false
           + calculateOptionSlippage
             { cfg with worstCaseSlippagePercent := 5 } b.longPutHigher q true
           + calculateOptionSlippage
             { cfg with worstCaseSlippagePercent := 5 } b.shortPutLower q false) := by
  refine ⟨?_, ?_, ?_, ?_, ?_⟩
  · intro isBuy hempty
    cases isBuy <;> simp_all [calculateOptionSlippage]
  · intro isBuy hlt
    have hrem : ∀ depth : List DepthLevel, depthTotal depth < q →
        (walkDepth depth q).2 ≠ 0 := by
      intro depth hd
      rw [walkDepth_snd]
      omega
    cases isBuy <;> simp only [Bool.false_eq_true, if_true, if_false,
      ite_true, ite_false] at hlt
    · by_cases hemp : inst.buyDepth.isEmpty
      · simp [calculateOptionSlippage, hemp]
      · simp [calculateOptionSlippage, hemp, hrem inst.buyDepth hlt]
    · by_cases hemp : inst.sellDepth.isEmpty
      · simp [calculateOptionSlippage, hemp]
      · simp [calculateOptionSlippage, hemp, hrem inst.sellDepth hlt]
  · intro hfull
    have hne : inst.sellDepth.isEmpty = false := by
      cases hd : inst.sellDepth with
      | nil => rw [hd] at hfull; simp [depthTotal] at hfull; omega
      | cons a l => simp [hd]
    have hz : (walkDepth inst.sellDepth q).2 = 0 := by
      rw [walkDepth_snd]; omega
    simp [calculateOptionSlippage, hne, hz]
  · intro hfull
    have hne : inst.buyDepth.isEmpty = false := by
      cases hd : inst.buyDepth with
      | nil => rw [hd] at hfull; simp [depthTotal] at hfull; omega
      | cons a l => simp [hd]
    have hz : (walkDepth inst.buyDepth q).2 = 0 := by
      rw [walkDepth_snd]; omega
    simp [calculateOptionSlippage, hne, hz]
  · intro b
    rfl

/-- C3 witness: a two-unit buy against a one-level ladder that can
serve it, evaluated through the full-fill branch. -/
theorem c3_witness :
    0 < 2 ∧ 2 ≤ depthTotal c3Inst.sellDepth ∧
    calculateOptionSlippage defaultConfig c3Inst 2 true
      = ((walkDepth c3Inst.sellDepth 2).1 / 2 - c3Inst.lastPrice) * 2 :=
  ⟨by decide, by decide,
   (c3_slippage defaultConfig c3Inst 2 (by decide)).2.2.1 (by decide)⟩

theorem strikePairsFrom_fst_mem {mn mx : ℚ} :
    ∀ {l : List ℚ} (p : ℚ × ℚ), p ∈ strikePairsFrom mn mx l → p.1 ∈ l := by
  intro l
  induction l with
  | nil => intro p hp; simp [strikePairsFrom] at hp
  | cons s rest ih =>
    intro p hp
    rw [strikePairsFrom] at hp
    rcases List.mem_append.mp hp with hA | hB
    · obtain ⟨t, _, hf⟩ := List.mem_filterMap.mp hA
      by_cases hc : mn ≤ t - s ∧ t - s ≤ mx
      · rw [if_pos hc] at hf
        obtain rfl := Option.some_inj.mp hf
        exact List.mem_cons_self _ _
      · rw [if_neg hc] at hf
        exact absurd hf (by simp)
    · exact List.mem_cons_of_mem _ (ih p hB)

theorem strikePairsFrom_mem {mn mx : ℚ} :
    ∀ {l : List ℚ}, l.Sorted (· < ·) →
    ∀ p ∈ strikePairsFrom mn mx l,
      p.1 ∈ l ∧ p.2 ∈ l ∧ p.1 < p.2 ∧ mn ≤ p.2 - p.1 ∧ p.2 - p.1 ≤ mx := by
  intro l
  induction l with
  | nil => intro _ p hp; simp [strikePairsFrom] at hp
  | cons s rest ih =>
    intro hs p hp
    obtain ⟨hhead, htail⟩ := List.sorted_cons.mp hs
    rw [strikePairsFrom] at hp
    rcases List.mem_append.mp hp with hA | hB
    · obtain ⟨t, ht, hf⟩ := List.mem_filterMap.mp hA
      by_cases hc : mn ≤ t - s ∧ t - s ≤ mx
      · rw [if_pos hc] at hf
        obtain rfl := Option.some_inj.mp hf
        exact ⟨List.mem_cons_self _ _, List.mem_cons_of_mem _ ht,
          hhead t ht, hc.1, hc.2⟩
      · rw [if_neg hc] at hf
        exact absurd hf (by simp)
    · obtain ⟨h1, h2, h3, h4, h5⟩ := ih htail p hB
      exact ⟨List.mem_cons_of_mem _ h1, List.mem_cons_of_mem _ h2, h3, h4, h5⟩

theorem count_filterMap_pairs (s x y : ℚ) (P : ℚ → Prop) [DecidablePred P] :
    ∀ l : List ℚ,
      ((l.filterMap fun t => if P t then some (s, t) else none).count (x, y))
        = if x = s ∧ P y then l.count y else 0 := by
  intro l
  induction l with
  | nil => simp
  | cons t ts ih =>
    by_cases hPt : P t
    · rw [List.filterMap_cons_some (by rw [if_pos hPt])]
      rw [List.count_cons, ih, List.count_cons]
      by_cases hxs : x = s
      · by_cases hty : t = y
        · have hPy : P y := hty ▸ hPt
          simp [hxs, hty, hPy]
        · have hne : ((s, t) == (x, y)) = false := by
            simp [Prod.ext_iff]
            intro _
            exact hty
          rw [hne]
          by_cases hPy : P y <;> simp [hxs, hPy, hty]
      · have hne : ((s, t) == (x, y)) = false := by
          simp [Prod.ext_iff]
          intro h
          exact absurd h.symm hxs
        rw [hne]
        simp [hxs]
    · rw [List.filterMap_cons_none (by rw [if_neg hPt])]
      rw [ih, List.count_cons]
      by_cases hxs : x = s
      · by_cases hty : t = y
        · have hPy : ¬ P y := by rw [← hty]; exact hPt
          simp [hxs, hPy]
        · by_cases hPy : P y <;> simp [hxs, hPy, hty]
      · simp [hxs]

theorem strikePairsFrom_count {mn mx : ℚ} :
    ∀ {l : List ℚ}, l.Sorted (· < ·) →
    ∀ x y : ℚ, x ∈ l → y ∈ l → x < y → mn ≤ y - x → y - x ≤ mx →
    (strikePairsFrom mn mx l).count (x, y) = 1 := by
  intro l
  induction l with
  | nil => intro _ x y hx; simp at hx
  | cons s rest ih =>
    intro hs x y hx hy hxy h1 h2
    obtain ⟨hhead, htail⟩ := List.sorted_cons.mp hs
    rw [strikePairsFrom, List.count_append]
    by_cases hxs : x = s
    · subst hxs
      have hyrest : y ∈ rest := by
        rcases List.mem_cons.mp hy with h | h
        · subst h
          exact absurd hxy (lt_irrefl _)
        · exact h
      have hA : ((rest.filterMap fun t =>
          if mn ≤ t - x ∧ t - x ≤ mx then some (x, t) else none).count (x, y))
          = rest.count y := by
        rw [count_filterMap_pairs]
        simp [h1, h2]
      have hB : (strikePairsFrom mn mx rest).count (x, y) = 0 := by
        rw [List.count_eq_zero]
        intro hmem
        exact absurd (hhead x (strikePairsFrom_fst_mem _ hmem)) (lt_irrefl _)
      rw [hA, hB, List.count_eq_one_of_mem htail.nodup hyrest]
    · have hxrest : x ∈ rest := by
        rcases List.mem_cons.mp hx with h | h
        · exact absurd h hxs
        · exact h
      have hyrest : y ∈ rest := by
        rcases List.mem_cons.mp hy with h | h
        · subst h
          exact absurd (lt_trans hxy (hhead x hxrest)) (lt_irrefl _)
        · exact h
      have hA : ((rest.filterMap fun t =>
          if mn ≤ t - s ∧ t - s ≤ mx then some (s, t) else none).count (x, y))
          = 0 := by
        rw [count_filterMap_pairs]
        simp [hxs]
      rw [hA, ih htail x y hxrest hyrest hxy h1 h2]

/-- C7: over a strictly sorted strike list, every emitted pair has its
lower strike below its higher strike with the difference inside the
configured bounds, and every pair of distinct strikes from the list
whose difference lies inside the bounds is emitted exactly once. -/
theorem c7_strike_pairs (cfg : Config) (strikes : List ℚ)
    (hs : strikes.Sorted (· < ·)) :
    (∀ p ∈ generateStrikeCombinations cfg strikes,
       p.1 ∈ strikes ∧ p.2 ∈ strikes ∧ p.1 < p.2 ∧
       cfg.minStrikeDiff ≤ p.2 - p.1 ∧ p.2 - p.1 ≤ cfg.maxStrikeDiff) ∧
    (∀ x y : ℚ, x ∈ strikes → y ∈ strikes → x < y →
       cfg.minStrikeDiff ≤ y - x → y - x ≤ cfg.maxStrikeDiff →
       (generateStrikeCombinations cfg strikes).count (x, y) = 1) :=
  ⟨fun p hp => strikePairsFrom_mem hs p hp,
   fun x y hx hy hxy h1 h2 =>
     strikePairsFrom_count hs x y hx hy hxy h1 h2⟩

/-- C7 witness: the pair (100, 200) of the sorted strike list
[100, 200, 300] is emitted exactly once under the default bounds. -/
theorem c7_witness :
    ([100, 200, 300] : List ℚ).Sorted (· < ·) ∧
    (generateStrikeCombinations defaultConfig [100, 200, 300]).count
      ((100 : ℚ), (200 : ℚ)) = 1 := by
  have hs : ([100, 200, 300] : List ℚ).Sorted (· < ·) := by decide
  exact ⟨hs, (c7_strike_pairs defaultConfig [100, 200, 300] hs).2 100 200
    (by simp) (by simp) (by norm_num) (by norm_num [defaultConfig])
    (by norm_num [defaultConfig])⟩

theorem runRateLimiter_subset (r : ℕ) :
    ∀ (calls queue : List ℚ), ∀ g ∈ runRateLimiter r queue calls, g ∈ calls := by
  intro calls
  induction calls with
  | nil => intro queue g hg; simp [runRateLimiter] at hg
  | cons now rest ih =>
    intro queue g hg
    rw [runRateLimiter] at hg
    by_cases hlen : (evictOld now queue).length < r
    · rw [if_pos hlen] at hg
      rcases List.mem_cons.mp hg with h | h
      · exact h ▸ List.mem_cons_self _ _
      · exact List.mem_cons_of_mem _ (ih _ g h)
    · rw [if_neg hlen] at hg
      exact List.mem_cons_of_mem _ (ih _ g hg)

theorem runRateLimiter_window (r : ℕ) (a : ℚ) :
    ∀ (calls queue : List ℚ), calls.Pairwise (· ≤ ·) →
      (∀ x ∈ queue, ∀ c ∈ calls, x ≤ c) →
      queue.length ≤ r →
      (runRateLimiter r queue calls).countP
          (fun g => decide (a ≤ g) && decide (g ≤ a + 60))
        + queue.countP (fun x => decide (a ≤ x)) ≤ r := by
  intro calls
  induction calls with
  | nil =>
    intro queue _ _ hlen
    simp only [runRateLimiter, List.countP_nil, Nat.zero_add]
    exact le_trans (List.countP_le_length _) hlen
  | cons now rest ih =>
    intro queue hpair hqc hlen
    obtain ⟨hnr, hrest⟩ := List.pairwise_cons.mp hpair
    have hqsplit : queue.countP (fun x => decide (a ≤ x))
        = (queue.takeWhile (fun t => decide (t < now - 60))).countP
            (fun x => decide (a ≤ x))
          + (evictOld now queue).countP (fun x => decide (a ≤ x)) := by
      conv =>
        lhs
        rw [← List.takeWhile_append_dropWhile
          (p := fun t => decide (t < now - 60)) (l := queue)]
      rw [List.countP_append]
      rfl
    have htsmem : ∀ x ∈ evictOld now queue, x ∈ queue :=
      (List.dropWhile_sublist _).subset
    have htslen : (evictOld now queue).length ≤ queue.length :=
      (List.dropWhile_sublist _).length_le
    have hqc2 : ∀ x ∈ evictOld now queue, ∀ c ∈ rest, x ≤ c :=
      fun x hx c hc => hqc x (htsmem x hx) c (List.mem_cons_of_mem _ hc)
    rw [runRateLimiter]
    by_cases hgrant : (evictOld now queue).length < r
    · rw [if_pos hgrant]
      have ihres := ih (evictOld now queue ++ [now]) hrest
        (by
          intro x hx c hc
          rcases List.mem_append.mp hx with h | h
          · exact hqc2 x h c hc
          · rw [List.mem_singleton.mp h]
            exact hnr c hc)
        (by
          rw [List.length_append, List.length_singleton]
          omega)
      rw [List.countP_append, List.countP_singleton] at ihres
      rw [List.countP_cons, hqsplit]
      by_cases hwin : now ≤ a + 60
      · have htw0 : (queue.takeWhile (fun t => decide (t < now - 60))).countP
            (fun x => decide (a ≤ x)) = 0 := by
          rw [List.countP_eq_zero]
          intro x hx
          have := List.mem_takeWhile_imp hx
          simp only [decide_eq_true_eq] at this ⊢
          intro hax
          linarith
        rw [htw0]
        by_cases han : a ≤ now
        · have hpnow : (decide (a ≤ now) && decide (now ≤ a + 60)) = true := by
            simp [han, hwin]
          simp only [hpnow, if_true] at *
          simp only [decide_eq_true_eq] at ihres ⊢
          have : (if a ≤ now then 1 else 0) = 1 := if_pos han
          rw [this] at ihres
          omega
        · have hpnow : (decide (a ≤ now) && decide (now ≤ a + 60)) = false := by
            simp [han]
          rw [hpnow]
          simp only [Bool.false_eq_true, if_false]
          have hcond : ¬ (decide (a ≤ now) = true) := by simpa using han
          rw [if_neg hcond] at ihres
          omega
      · have hpnow : (decide (a ≤ now) && decide (now ≤ a + 60)) = false := by
          simp only [Bool.and_eq_false_iff]
          right
          simp only [decide_eq_false_iff_not]
          exact hwin
        rw [hpnow]
        simp only [Bool.false_eq_true, if_false]
        have hrun0 : (runRateLimiter r (evictOld now queue ++ [now]) rest).countP
            (fun g => decide (a ≤ g) && decide (g ≤ a + 60)) = 0 := by
          rw [List.countP_eq_zero]
          intro g hg
          have hgrest := runRateLimiter_subset r rest _ g hg
          have : now ≤ g := hnr g hgrest
          simp only [Bool.and_eq_true, decide_eq_true_eq, not_and]
          intro _
          linarith
        rw [hrun0]
        have h1 : queue.countP (fun x => decide (a ≤ x)) ≤ queue.length :=
          List.countP_le_length _
        rw [hqsplit] at h1
        omega
    · rw [if_neg hgrant]
      have ihres := ih (evictOld now queue) hrest hqc2 (le_trans htslen hlen)
      rw [hqsplit]
      by_cases hwin : now ≤ a + 60
      · have htw0 : (queue.takeWhile (fun t => decide (t < now - 60))).countP
            (fun x => decide (a ≤ x)) = 0 := by
          rw [List.countP_eq_zero]
          intro x hx
          have := List.mem_takeWhile_imp hx
          simp only [decide_eq_true_eq] at this ⊢
          intro hax
          linarith
        rw [htw0]
        omega
      · have hrun0 : (runRateLimiter r (evictOld now queue) rest).countP
            (fun g => decide (a ≤ g) && decide (g ≤ a + 60)) = 0 := by
          rw [List.countP_eq_zero]
          intro g hg
          have hgrest := runRateLimiter_subset r rest _ g hg
          have : now ≤ g := hnr g hgrest
          simp only [Bool.and_eq_true, decide_eq_true_eq, not_and]
          intro _
          linarith
        rw [hrun0]
        have h1 : queue.countP (fun x => decide (a ≤ x)) ≤ queue.length :=
          List.countP_le_length _
        rw [hqsplit] at h1
        omega

/-- C4: over any 60-second window the admissions of `checkRateLimit`
for one cell stay within the cell's per-minute budget, for every
monotone trace of acquire-call instants; and endpoints resolve to their
own cell when registered and to the default cell otherwise. -/
theorem c4_rate_limit :
    (∀ (r : ℕ) (calls : List ℚ), calls.Pairwise (· ≤ ·) → ∀ a : ℚ,
       (runRateLimiter r [] calls).countP
           (fun g => decide (a ≤ g) && decide (g ≤ a + 60)) ≤ r) ∧
    (∀ (registered : List String) (endpoint : String),
       endpoint ∉ registered → rateKeyFor registered endpoint = "default") ∧
    (∀ (registered : List String) (endpoint : String),
       endpoint ∈ registered → rateKeyFor registered endpoint = endpoint) := by
  refine ⟨?_, ?_, ?_⟩
  · intro r calls hpair a
    have := runRateLimiter_window r a calls [] hpair (by simp) (by simp)
    simpa using this
  · intro registered endpoint h
    simp [rateKeyFor, h]
  · intro registered endpoint h
    simp [rateKeyFor, h]

/-- C4 witness: a concrete monotone trace of four acquire calls against
a budget of two, and an unregistered endpoint falling back to the
default cell. -/
theorem c4_witness :
    List.Pairwise (· ≤ ·) [(0 : ℚ), 0, 30, 70] ∧
    (runRateLimiter 2 [] [(0 : ℚ), 0, 30, 70]).countP
        (fun g => decide ((0 : ℚ) ≤ g) && decide (g ≤ (0 : ℚ) + 60)) ≤ 2 ∧
    rateKeyFor ["/quote"] "/portfolio" = "default" := by
  have hp : List.Pairwise (· ≤ ·) [(0 : ℚ), 0, 30, 70] := by decide
  exact ⟨hp, c4_rate_limit.1 2 [(0 : ℚ), 0, 30, 70] hp 0,
    c4_rate_limit.2.1 ["/quote"] "/portfolio" (by simp)⟩

end BoxStrategy
